import Mathlib

/-!
# skrins: region selection and the upload pipeline

A shallow embedding of `main.go`: the selection loop of `run` with the
rectangle it hands to `generateScreenshot`, and the directory pass of
`upload` with its helpers (`allowedExtension`, `ffmpegTranscode`,
`uploadObjectToDestination`, `openbrowser`).
-/

namespace Skrins

/-! ## Region selection (`run`) -/

/-- Go `int` on a 64-bit platform: the value is kept modulo `2^64` in
two-complement form. -/
def wrap64 (x : Int) : Int := (x + 2 ^ 63) % 2 ^ 64 - 2 ^ 63

/-- The range of values a Go `int` holds without wrapping. -/
def fits64 (x : Int) : Prop := -(2 ^ 63) ≤ x ∧ x < 2 ^ 63

instance (x : Int) : Decidable (fits64 x) := by unfold fits64; infer_instance

/-- A `pixel.Vec`. Each component carries the integer that `int(...)` yields
for the `float64` coordinate: `run` only stores the sampled coordinates in
`u`, `v` and `rect` and truncates them after the loop, so truncating when the
position is sampled gives the same integers. -/
structure Vec where
  X : Int
  Y : Int
deriving DecidableEq, Repr

/-- A `pixel.Rect`. -/
structure Rect where
  Min : Vec
  Max : Vec
deriving DecidableEq, Repr

/-- The constructor `pixel.R(minX, minY, maxX, maxY)` of the pixel library: it
stores the four numbers as given and does not normalise them. -/
def R (minX minY maxX maxY : Int) : Rect := ⟨⟨minX, minY⟩, ⟨maxX, maxY⟩⟩

/-- An `image.Point`. -/
structure Point where
  X : Int
  Y : Int
deriving DecidableEq, Repr

/-- An `image.Rectangle`. -/
structure Rectangle where
  Min : Point
  Max : Point
deriving DecidableEq, Repr

/-- What the window reports during one iteration of the loop of `run`:
`win.Pressed(MouseButtonLeft)`, `win.JustReleased(MouseButtonLeft)`,
`win.JustReleased(MouseButtonRight)`, `win.MousePosition()`, and whether the
window system asks for the window to be closed during `win.Update()`. -/
structure Poll where
  pressedLeft : Bool
  justReleasedLeft : Bool
  justReleasedRight : Bool
  mouse : Vec
  closeRequest : Bool
deriving DecidableEq, Repr

/-- The local variables of `run` that live across loop iterations, and the
closed flag of the window. -/
structure Selection where
  u : Vec
  v : Vec
  drawing : Bool
  rect : Rect
  shot : Bool
  closed : Bool
deriving DecidableEq, Repr

/-- The state of `run` before the loop (lines 273-278). -/
def Selection.start : Selection :=
  { u := ⟨0, 0⟩, v := ⟨0, 0⟩, drawing := false, rect := ⟨⟨0, 0⟩, ⟨0, 0⟩⟩,
    shot := false, closed := false }

/-- Lines 280-306: the primary button is held. -/
def onPressed (s : Selection) (p : Poll) : Selection :=
  if p.pressedLeft then
    if !s.drawing then
      { s with u := p.mouse, drawing := true }
    else
      { s with v := p.mouse, rect := R s.u.X s.u.Y p.mouse.X p.mouse.Y }
  else s

/-- Lines 308-312: the primary button was released. -/
def onReleasedLeft (s : Selection) (p : Poll) : Selection :=
  if p.justReleasedLeft then
    { s with drawing := false, closed := true, shot := true }
  else s

/-- Lines 314-316: the secondary button was released. -/
def onReleasedRight (s : Selection) (p : Poll) : Selection :=
  if p.justReleasedRight then { s with closed := true } else s

/-- One iteration of the loop of `run` (lines 280-319). -/
def loopBody (s : Selection) (p : Poll) : Selection :=
  let s1 := onReleasedRight (onReleasedLeft (onPressed s p) p) p
  { s1 with closed := s1.closed || p.closeRequest }

/-- The loop `for !win.Closed()` over the polls still to come. `none` means the
polls given ran out while the window was still open. -/
def selectionLoop : Selection → List Poll → Option Selection
  | s, [] => if s.closed then some s else none
  | s, p :: ps => if s.closed then some s else selectionLoop (loopBody s p) ps

/-- Lines 323-349: the rectangle built from `rect` and the monitor height
once `shot` is set. -/
def captureBounds (monitorY : Int) (rect : Rect) : Rectangle :=
  let maxX := wrap64 rect.Max.X
  let maxY := wrap64 rect.Max.Y
  let minX := wrap64 rect.Min.X
  let minY := wrap64 rect.Min.Y
  let maxY := wrap64 (wrap64 (wrap64 monitorY - maxY) + 24)
  let minY := wrap64 (wrap64 (wrap64 monitorY - minY) + 24)
  let (minX, maxX) := if minX > maxX then (maxX, minX) else (minX, maxX)
  let (minY, maxY) := if minY > maxY then (maxY, minY) else (minY, maxY)
  { Min := { X := minX, Y := minY }, Max := { X := maxX, Y := maxY } }

/-- The function `run` as a whole, for a monitor of height `monitorY`: the
outer `none` says the loop had not ended when the polls ran out, `some none`
that `run` returned without a capture, and `some (some b)` that it called
`generateScreenshot b`. -/
def run (monitorY : Int) (polls : List Poll) : Option (Option Rectangle) :=
  match selectionLoop Selection.start polls with
  | none => none
  | some s => if s.shot then some (some (captureBounds monitorY s.rect)) else some none

/-- A poll with the primary button held and the pointer at `m`. -/
def held (m : Vec) : Poll :=
  { pressedLeft := true, justReleasedLeft := false, justReleasedRight := false,
    mouse := m, closeRequest := false }

/-- A poll in which the primary button has just been released, pointer at `m`. -/
def released (m : Vec) : Poll :=
  { pressedLeft := false, justReleasedLeft := true, justReleasedRight := false,
    mouse := m, closeRequest := false }

/-- A poll with no button held or released and the pointer at `m`. -/
def idle (m : Vec) : Poll :=
  { pressedLeft := false, justReleasedLeft := false, justReleasedRight := false,
    mouse := m, closeRequest := false }

/-- A drag: the button goes down at `a`, is held over the positions `mids`
and then at `c`, and is released with the pointer at `w`. -/
def drag (a : Vec) (mids : List Vec) (c w : Vec) : List Poll :=
  held a :: (mids.map held ++ [held c, released w])

/-! ## The upload pipeline (`upload`) -/

/-- The class `\w` of Go regular expressions: `[0-9A-Za-z_]`. -/
def isWordChar (c : Char) : Bool := c.isAlphanum || c == '_'

/-- The tail `\.(\w+)$` of `fileExtRegexp` at the head of the text: a dot, the
longest run of word characters (at least one), and then the end of the text.
The result is the text of group 1. -/
def matchDotWord : List Char → Option (List Char)
  | [] => none
  | c :: rest =>
    if c = '.' then
      if rest.takeWhile isWordChar ≠ [] ∧ rest.dropWhile isWordChar = [] then
        some (rest.takeWhile isWordChar)
      else none
    else none

/-- The expression `.*?\.(\w+)$` matched from the head of the text. The lazy
`.*?` first takes nothing, and then one more character at a time; `.` does
not match a line feed. -/
def matchFrom : List Char → Option (List Char)
  | [] => none
  | c :: cs =>
    match matchDotWord (c :: cs) with
    | some e => some e
    | none => if c = Char.ofNat 10 then none else matchFrom cs

/-- The leftmost match of `fileExtRegexp` in the text: the matched text and
group 1. -/
def findSubmatch : List Char → Option (List Char × List Char)
  | [] => none
  | c :: cs =>
    match matchFrom (c :: cs) with
    | some e => some (c :: cs, e)
    | none => findSubmatch cs

/-- The call `fileExtRegexp.FindAllStringSubmatch(name, -1)` of line 118. A
match of `.*?\.(\w+)$` ends at the end of the name, so there is at most one. -/
def findAllStringSubmatch (name : String) : List (List String) :=
  match findSubmatch name.toList with
  | none => []
  | some (m, e) => [[String.mk m, String.mk e]]

/-- The list `allowed` of `allowedExtension` (line 167). -/
def allowed : List String :=
  ["jpg", "jpeg", "png", "gif", "webm", "mp4", "mov", "zip", "tar", "tar.gz", "tar.bz2"]

/-- The function `allowedExtension` (lines 166-176). -/
def allowedExtension (ext : String) : Bool := allowed.any (fun e => ext == e)

/-- An entry of the Capture Store as `ioutil.ReadDir` reports it. -/
structure Entry where
  name : String
  isDir : Bool
deriving DecidableEq, Repr

/-- The package-level settings after `flags`, and `runtime.GOOS`. -/
structure Config where
  screensPath : String
  remotePath : String
  baseURL : String
  goos : String
deriving DecidableEq, Repr

/-- The outside world as `upload` meets it. `W` is the hidden state of the
world; every call may depend on it and change it. A `Bool` result is `true`
when the call returns no error. -/
structure Env (W : Type) where
  /-- Whether `ioutil.ReadDir(screensPath)` succeeds. -/
  readDir : W → Bool × W
  /-- The call `exec.Command(name, args...).Run()`. -/
  cmdRun : W → String → List String → Bool × W
  /-- The call `exec.Command(name, args...).Start()`. -/
  cmdStart : W → String → List String → Bool × W
  /-- The call `shortuuid.New()`. -/
  shortuuidNew : W → String × W
  /-- The function `newSFTPClient` (key file, key parsing, dial, sftp session). -/
  newSFTPClient : W → Bool × W
  /-- The call `client.OpenFile(path, ...)` on the remote host. -/
  openFile : W → String → Bool × W
  /-- The call `os.Open(src)` on the local file. -/
  osOpen : W → String → Bool × W
  /-- The call `io.Copy` from the local file `src` to the remote file `dst`. -/
  ioCopy : W → String → String → Bool × W
  /-- The call `clipboard.WriteAll(s)`; its result is dropped. -/
  clipboardWriteAll : W → String → W
  /-- The call `notify.Push(title, text, "", UR_NORMAL)`; its result is dropped. -/
  notifyPush : W → String → String → W

/-- What `upload` does to the outside, in order: the calls of
`ffmpegTranscode`, `uploadObjectToDestination`, `copyToClipboard`,
`showNotification`, `openbrowser` and `os.Remove` with their arguments, the
end of the process in `log.Fatal`, and its end in a run-time panic. -/
inductive Event where
  | transcode (fileIn fileOut : String)
  | transfer (src dest : String)
  | clipboard (s : String)
  | notification (url : String)
  | browser (url : String)
  | remove (path : String)
  | fatal
  | crash
deriving DecidableEq, Repr

/-- The local file an event reads or deletes: the input of a transcode, the
source of a transfer, the path of a removal. -/
def Event.source : Event → Option String
  | .transcode fileIn _ => some fileIn
  | .transfer src _ => some src
  | .remove path => some path
  | _ => none

/-- The process as `upload` sees it: the hidden world, the entries of the
Capture Store, the calls made so far, and whether `log.Fatal` or a panic
ended it. -/
structure State (W : Type) where
  world : W
  store : List Entry
  trace : List Event
  exited : Bool
deriving DecidableEq

/-- The call `os.Remove(fullPath)` on the Capture Store. -/
def removeFile (cfg : Config) (store : List Entry) (fullPath : String) : List Entry :=
  store.filter (fun e => cfg.screensPath ++ e.name != fullPath)

/-- The file `name` after a command has written it into the Capture Store. -/
def writeFile (store : List Entry) (name : String) : List Entry :=
  if store.any (fun e => e.name == name) then store
  else store ++ [{ name := name, isDir := false }]

/-- The function `ffmpegTranscode` (lines 179-195): `true` exactly when
running ffmpeg returns no error. -/
def ffmpegTranscode {W : Type} (env : Env W) (w : W) (fileIn fileOut : String) : Bool × W :=
  match env.cmdRun w "/usr/local/bin/ffmpeg" ["-i", fileIn, fileOut] with
  | (false, w1) => (false, w1)
  | (true, w1) => (true, w1)

/-- The function `uploadObjectToDestination` (lines 222-252): `true` when it
returns `nil`. -/
def uploadObjectToDestination {W : Type} (env : Env W) (cfg : Config) (w : W)
    (src dest : String) : Bool × W :=
  match env.newSFTPClient w with
  | (false, w1) => (false, w1)
  | (true, w1) =>
    match env.openFile w1 (cfg.remotePath ++ dest) with
    | (false, w2) => (false, w2)
    | (true, w2) =>
      match env.osOpen w2 src with
      | (false, w3) => (false, w3)
      | (true, w3) => env.ioCopy w3 src (cfg.remotePath ++ dest)

/-- The function `openbrowser` (lines 370-387): `false` when `err != nil`, the
case in which it calls `log.Fatal`. -/
def openbrowser {W : Type} (env : Env W) (cfg : Config) (w : W) (url : String) : Bool × W :=
  if cfg.goos = "linux" then env.cmdStart w "xdg-open" [url]
  else if cfg.goos = "windows" then
    env.cmdStart w "rundll32" ["url.dll,FileProtocolHandler", url]
  else if cfg.goos = "darwin" then env.cmdStart w "open" [url]
  else (false, w)

/-- The function `copyToClipboard` (lines 161-163). -/
def copyToClipboard {W : Type} (env : Env W) (w : W) (s : String) : W :=
  env.clipboardWriteAll w s

/-- The platforms for which `notificator.New` of the notificator library
sets up a notifier: its switch on `runtime.GOOS` has the cases `darwin`,
`linux` and `windows` and no default, so on any other platform the notifier
stays `nil`. -/
def notifierSupported (goos : String) : Bool :=
  goos == "darwin" || goos == "linux" || goos == "windows"

/-- The function `showNotification` (lines 153-158): `false` when it does not
return. With a `nil` notifier the call `notify.Push` of line 157 panics,
which ends the process; otherwise the command is run and its error dropped. -/
def showNotification {W : Type} (env : Env W) (cfg : Config) (w : W) (url : String) :
    Bool × W :=
  if notifierSupported cfg.goos then (true, env.notifyPush w "Screenshot uploaded!" url)
  else (false, w)

/-- Lines 125-134, the branch for `mov`: the state after it, and whether it
ended the entry with `continue`. A successful ffmpeg run leaves `out.mp4` in
the Capture Store. -/
def movBranch {W : Type} (env : Env W) (cfg : Config) (s : State W) (fullPath ext : String) :
    State W × Bool :=
  if ext = "mov" then
    match ffmpegTranscode env s.world fullPath (cfg.screensPath ++ "out.mp4") with
    | (true, w1) =>
      ({ s with
          world := w1
          store := removeFile cfg (writeFile s.store "out.mp4") fullPath
          trace := s.trace ++
            [Event.transcode fullPath (cfg.screensPath ++ "out.mp4"), Event.remove fullPath] },
        true)
    | (false, w1) =>
      ({ s with
          world := w1
          trace := s.trace ++ [Event.transcode fullPath (cfg.screensPath ++ "out.mp4")] },
        false)
  else (s, false)

/-- Lines 142-146: what follows a transfer that returned no error. A panic in
`showNotification` ends the process before `openbrowser`, and a failing
`openbrowser` ends it in `log.Fatal`, before `os.Remove`. -/
def afterTransfer {W : Type} (env : Env W) (cfg : Config) (s : State W)
    (fullPath remoteFilename : String) : State W :=
  let url := cfg.baseURL ++ remoteFilename
  let w1 := copyToClipboard env s.world url
  match showNotification env cfg w1 url with
  | (false, w2) =>
    { s with
        world := w2
        trace := s.trace ++ [Event.clipboard url, Event.notification url, Event.crash]
        exited := true }
  | (true, w2) =>
    match openbrowser env cfg w2 url with
    | (false, w3) =>
      { s with
          world := w3
          trace := s.trace ++
            [Event.clipboard url, Event.notification url, Event.browser url, Event.fatal]
          exited := true }
    | (true, w3) =>
      { s with
          world := w3
          store := removeFile cfg s.store fullPath
          trace := s.trace ++
            [Event.clipboard url, Event.notification url, Event.browser url,
             Event.remove fullPath] }

/-- Lines 136-146: the transfer of one file and what follows it. -/
def transferStage {W : Type} (env : Env W) (cfg : Config) (s : State W)
    (fullPath ext : String) : State W :=
  match env.shortuuidNew s.world with
  | (id, w1) =>
    let remoteFilename := id ++ "." ++ ext
    match uploadObjectToDestination env cfg w1 fullPath remoteFilename with
    | (false, w2) =>
      { s with world := w2, trace := s.trace ++ [Event.transfer fullPath remoteFilename] }
    | (true, w2) =>
      afterTransfer env cfg
        { s with world := w2, trace := s.trace ++ [Event.transfer fullPath remoteFilename] }
        fullPath remoteFilename

/-- The body of the loop of `upload` for one entry (lines 112-148). -/
def uploadEntry {W : Type} (env : Env W) (cfg : Config) (s : State W) (f : Entry) : State W :=
  if f.isDir then s
  else
    let fullPath := cfg.screensPath ++ f.name
    match findAllStringSubmatch f.name with
    | (_ :: ext :: _) :: _ =>
      if !allowedExtension ext then s
      else
        match movBranch env cfg s fullPath ext with
        | (s1, true) => s1
        | (s1, false) => transferStage env cfg s1 fullPath ext
    | _ => s

/-- The loop of `upload` over the listing (lines 111-149); nothing runs once
the process has ended. -/
def uploadLoop {W : Type} (env : Env W) (cfg : Config) : List Entry → State W → State W
  | [], s => s
  | f :: fs, s => if s.exited then s else uploadLoop env cfg fs (uploadEntry env cfg s f)

/-- The function `upload` (lines 103-150): one pass over the listing of the
Capture Store taken at its start. -/
def upload {W : Type} (env : Env W) (cfg : Config) (s : State W) : State W :=
  if s.exited then s
  else
    match env.readDir s.world with
    | (false, w) => { s with world := w, trace := s.trace ++ [Event.fatal], exited := true }
    | (true, w) => uploadLoop env cfg s.store { s with world := w }

/-- Several passes in a row; before each one the files of `arrivals` are
written to the Capture Store from outside. -/
def uploadPasses {W : Type} (env : Env W) (cfg : Config) :
    List (List Entry) → State W → State W
  | [], s => s
  | arrivals :: more, s =>
    uploadPasses env cfg more (upload env cfg { s with store := s.store ++ arrivals })

/-- An outside world without hidden state for the examples: ffmpeg runs
without error only when `ffmpegOk`, a transfer reaches the remote host only
when `sftpOk`, the browser command starts only when `browserOk`, every other
call succeeds, and every identifier is `id7`. -/
def plainEnv (ffmpegOk sftpOk browserOk : Bool) : Env Unit where
  readDir := fun w => (true, w)
  cmdRun := fun w _ _ => (ffmpegOk, w)
  cmdStart := fun w _ _ => (browserOk, w)
  shortuuidNew := fun w => ("id7", w)
  newSFTPClient := fun w => (sftpOk, w)
  openFile := fun w _ => (true, w)
  osOpen := fun w _ => (true, w)
  ioCopy := fun w _ _ => (true, w)
  clipboardWriteAll := fun w _ => w
  notifyPush := fun w _ _ => w

/-- A configuration for the examples. -/
def demoConfig : Config :=
  { screensPath := "/s/", remotePath := "/r/", baseURL := "https://x/", goos := "linux" }

/-- Between the states `s` and `t` nothing was done to the entry `f`: it is
still in the Capture Store if it was, and no transcode, transfer or removal
took its path after `s`. -/
def Untouched {W : Type} (cfg : Config) (f : Entry) (s t : State W) : Prop :=
  (f ∈ s.store → f ∈ t.store) ∧
  ∀ ev ∈ t.trace, ev.source = some (cfg.screensPath ++ f.name) → ev ∈ s.trace

/-! ## Facts about the selection loop -/

theorem wrap64_of_fits {x : Int} (h : fits64 x) : wrap64 x = x := by
  unfold fits64 at h
  unfold wrap64
  omega

theorem wrap64_fits (x : Int) : fits64 (wrap64 x) := by
  unfold fits64 wrap64
  omega

theorem captureBounds_ordered (monitorY : Int) (rect : Rect) :
    (captureBounds monitorY rect).Min.X ≤ (captureBounds monitorY rect).Max.X ∧
    (captureBounds monitorY rect).Min.Y ≤ (captureBounds monitorY rect).Max.Y := by
  unfold captureBounds
  constructor
  · by_cases h : wrap64 rect.Min.X > wrap64 rect.Max.X
    · simp only [h, if_true]; omega
    · simp only [h, if_false]; omega
  · by_cases h : wrap64 (wrap64 (wrap64 monitorY - wrap64 rect.Min.Y) + 24) >
        wrap64 (wrap64 (wrap64 monitorY - wrap64 rect.Max.Y) + 24)
    · simp only [h, if_true]; omega
    · simp only [h, if_false]; omega

theorem captureBounds_swap (monitorY : Int) (a c : Vec) :
    captureBounds monitorY (R a.X a.Y c.X c.Y) = captureBounds monitorY (R c.X c.Y a.X a.Y) := by
  unfold captureBounds R
  simp only
  generalize wrap64 a.X = ax
  generalize wrap64 c.X = cx
  generalize wrap64 (wrap64 (wrap64 monitorY - wrap64 a.Y) + 24) = ay
  generalize wrap64 (wrap64 (wrap64 monitorY - wrap64 c.Y) + 24) = cy
  by_cases hx : ax > cx <;> by_cases hx2 : cx > ax <;>
    by_cases hy : ay > cy <;> by_cases hy2 : cy > ay <;>
    simp only [hx, hx2, hy, hy2, if_true, if_false, Rectangle.mk.injEq, Point.mk.injEq,
      true_and, and_true] <;>
    omega

/-- While the button stays held after the anchor was taken, the loop keeps the
anchor and follows the pointer; the release then closes the window with
`shot` set. -/
theorem selectionLoop_dragging (s : Selection) (mids : List Vec) (c w : Vec)
    (hd : s.drawing = true) (hc : s.closed = false) :
    selectionLoop s (mids.map held ++ [held c, released w]) =
      some { u := s.u, v := c, drawing := false, rect := R s.u.X s.u.Y c.X c.Y,
             shot := true, closed := true } := by
  induction mids generalizing s with
  | nil =>
    simp [selectionLoop, loopBody, onPressed, onReleasedLeft, onReleasedRight, held, released,
      hd, hc]
  | cons m ms ih =>
    simp only [List.map_cons, List.cons_append, selectionLoop, hc]
    have h1 : (loopBody s (held m)).drawing = true := by
      simp [loopBody, onPressed, onReleasedLeft, onReleasedRight, held, hd]
    have h2 : (loopBody s (held m)).closed = false := by
      simp [loopBody, onPressed, onReleasedLeft, onReleasedRight, held, hd, hc]
    have h3 : (loopBody s (held m)).u = s.u := by
      simp [loopBody, onPressed, onReleasedLeft, onReleasedRight, held, hd]
    have := ih (loopBody s (held m)) h1 h2
    simpa [h3] using this

theorem selectionLoop_drag (a : Vec) (mids : List Vec) (c w : Vec) :
    selectionLoop Selection.start (drag a mids c w) =
      some { u := a, v := c, drawing := false, rect := R a.X a.Y c.X c.Y,
             shot := true, closed := true } := by
  unfold drag
  rw [selectionLoop]
  have hs : Selection.start.closed = false := rfl
  simp only [hs]
  have h := selectionLoop_dragging (loopBody Selection.start (held a)) mids c w
    (by simp [loopBody, onPressed, onReleasedLeft, onReleasedRight, held, Selection.start])
    (by simp [loopBody, onPressed, onReleasedLeft, onReleasedRight, held, Selection.start])
  have hu : (loopBody Selection.start (held a)).u = a := by
    simp [loopBody, onPressed, onReleasedLeft, onReleasedRight, held, Selection.start]
  simpa [hu] using h

theorem run_drag (monitorY : Int) (a : Vec) (mids : List Vec) (c w : Vec) :
    run monitorY (drag a mids c w) =
      some (some (captureBounds monitorY (R a.X a.Y c.X c.Y))) := by
  unfold run
  rw [selectionLoop_drag]
  rfl

/-! ## Facts about the extension filter -/

theorem matchDotWord_some {l e : List Char} (h : matchDotWord l = some e) : l = '.' :: e := by
  cases l with
  | nil => simp [matchDotWord] at h
  | cons c rest =>
    simp only [matchDotWord] at h
    by_cases hc : c = '.'
    · by_cases hw : rest.takeWhile isWordChar ≠ [] ∧ rest.dropWhile isWordChar = []
      · rw [if_pos hc, if_pos hw] at h
        have hsplit := List.takeWhile_append_dropWhile isWordChar rest
        rw [hw.2, List.append_nil] at hsplit
        injection h with h
        rw [← h, hsplit, hc]
      · rw [if_pos hc, if_neg hw] at h
        exact absurd h (by simp)
    · rw [if_neg hc] at h
      exact absurd h (by simp)

theorem matchFrom_suffix {l e : List Char} (h : matchFrom l = some e) : ('.' :: e) <:+ l := by
  induction l with
  | nil => simp [matchFrom] at h
  | cons c cs ih =>
    unfold matchFrom at h
    cases hm : matchDotWord (c :: cs) with
    | some e2 =>
      rw [hm] at h
      injection h with h
      rw [← h, matchDotWord_some hm]
    | none =>
      rw [hm] at h
      by_cases hc : c = Char.ofNat 10
      · simp [hc] at h
      · simp only [hc, if_false] at h
        exact (ih h).trans (List.suffix_cons c cs)

theorem findSubmatch_suffix {l m e : List Char} (h : findSubmatch l = some (m, e)) :
    ('.' :: e) <:+ l := by
  induction l with
  | nil => simp [findSubmatch] at h
  | cons c cs ih =>
    unfold findSubmatch at h
    cases hm : matchFrom (c :: cs) with
    | some e2 =>
      rw [hm] at h
      simp only [Option.some.injEq, Prod.mk.injEq] at h
      rw [← h.2]
      exact matchFrom_suffix hm
    | none =>
      rw [hm] at h
      exact (ih h).trans (List.suffix_cons c cs)

/-- The listing of matches is empty or holds one match with two strings, the
second being what follows the last dot of the name. -/
theorem findAllStringSubmatch_cases (name : String) :
    findAllStringSubmatch name = [] ∨
    ∃ m e, findAllStringSubmatch name = [[String.mk m, String.mk e]] ∧
      ('.' :: e) <:+ name.toList := by
  unfold findAllStringSubmatch
  cases h : findSubmatch name.toList with
  | none => exact Or.inl rfl
  | some r =>
    obtain ⟨m, e⟩ := r
    exact Or.inr ⟨m, e, rfl, findSubmatch_suffix h⟩

theorem allowedExtension_mem {ext : String} (h : allowedExtension ext = true) : ext ∈ allowed := by
  unfold allowedExtension at h
  rw [List.any_eq_true] at h
  obtain ⟨e, he, hb⟩ := h
  have : ext = e := by simpa using hb
  rw [this]; exact he

theorem isWordChar_dot : isWordChar '.' = false := by decide

theorem matchDotWord_word {l e : List Char} (h : matchDotWord l = some e) :
    ∀ c ∈ e, isWordChar c = true := by
  cases l with
  | nil => simp [matchDotWord] at h
  | cons c rest =>
    simp only [matchDotWord] at h
    by_cases hc : c = '.'
    · by_cases hw : rest.takeWhile isWordChar ≠ [] ∧ rest.dropWhile isWordChar = []
      · rw [if_pos hc, if_pos hw] at h
        injection h with h
        intro d hd
        rw [← h] at hd
        exact List.mem_takeWhile_imp hd
      · rw [if_pos hc, if_neg hw] at h
        exact absurd h (by simp)
    · rw [if_neg hc] at h
      exact absurd h (by simp)

theorem matchFrom_word {l e : List Char} (h : matchFrom l = some e) :
    ∀ c ∈ e, isWordChar c = true := by
  induction l with
  | nil => simp [matchFrom] at h
  | cons c cs ih =>
    unfold matchFrom at h
    cases hm : matchDotWord (c :: cs) with
    | some e2 =>
      rw [hm] at h
      injection h with h
      rw [← h]
      exact matchDotWord_word hm
    | none =>
      rw [hm] at h
      by_cases hc : c = Char.ofNat 10
      · simp [hc] at h
      · simp only [hc, if_false] at h
        exact ih h

theorem findSubmatch_word {l m e : List Char} (h : findSubmatch l = some (m, e)) :
    ∀ c ∈ e, isWordChar c = true := by
  induction l with
  | nil => simp [findSubmatch] at h
  | cons c cs ih =>
    unfold findSubmatch at h
    cases hm : matchFrom (c :: cs) with
    | some e2 =>
      rw [hm] at h
      simp only [Option.some.injEq, Prod.mk.injEq] at h
      rw [← h.2]
      exact matchFrom_word hm
    | none =>
      rw [hm] at h
      exact ih h

/-- Two dot-free texts that both follow a dot at the end of the same name are
the same text: the extension is what follows the last dot. -/
theorem extension_unique {l e1 e2 : List Char}
    (h1 : ('.' :: e1) <:+ l) (h2 : ('.' :: e2) <:+ l)
    (d1 : '.' ∉ e1) (d2 : '.' ∉ e2) : e1 = e2 := by
  rcases List.suffix_or_suffix_of_suffix h1 h2 with h | h
  · rcases List.suffix_cons_iff.1 h with heq | hs
    · exact List.tail_eq_of_cons_eq heq
    · exact absurd (hs.subset (List.mem_cons_self _ _)) d2
  · rcases List.suffix_cons_iff.1 h with heq | hs
    · exact (List.tail_eq_of_cons_eq heq).symm
    · exact absurd (hs.subset (List.mem_cons_self _ _)) d1

/-- The extension that `upload` extracts from a name ending in a dot and a
dot-free text `x` is `x`, if it extracts one at all. -/
theorem findAllStringSubmatch_last {name : String} {x : List Char}
    (hx : ('.' :: x) <:+ name.toList) (hd : '.' ∉ x) :
    findAllStringSubmatch name = [] ∨
    ∃ m, findAllStringSubmatch name = [[String.mk m, String.mk x]] := by
  unfold findAllStringSubmatch
  cases h : findSubmatch name.toList with
  | none => exact Or.inl rfl
  | some r =>
    obtain ⟨m, e⟩ := r
    have hw := findSubmatch_word h
    have he : '.' ∉ e := fun hmem => by
      have := hw _ hmem
      rw [isWordChar_dot] at this
      exact absurd this (by simp)
    have := extension_unique (findSubmatch_suffix h) hx he hd
    exact Or.inr ⟨m, by rw [this]⟩

/-! ## Facts about the upload pass -/

section Pass

variable {W : Type} (env : Env W) (cfg : Config)

theorem uploadLoop_exited (l : List Entry) (s : State W) (h : s.exited = true) :
    uploadLoop env cfg l s = s := by
  cases l with
  | nil => rfl
  | cons f fs => simp [uploadLoop, h]

theorem uploadLoop_cons (f : Entry) (rest : List Entry) (s : State W) (h : s.exited = false) :
    uploadLoop env cfg (f :: rest) s = uploadLoop env cfg rest (uploadEntry env cfg s f) := by
  simp [uploadLoop, h]

theorem path_cancel (p a b : String) (h : p ++ a = p ++ b) : a = b := by
  have h2 := congrArg String.data h
  simp only [String.data_append] at h2
  exact String.ext (List.append_cancel_left h2)

theorem uploadEntry_skip (s : State W) (f : Entry)
    (hext : ∀ e ∈ allowed, ¬ (("." ++ e).toList <:+ f.name.toList)) :
    uploadEntry env cfg s f = s := by
  unfold uploadEntry
  by_cases hd : f.isDir = true
  · simp [hd]
  · simp only [hd, if_false]
    rcases findAllStringSubmatch_cases f.name with h0 | ⟨m, e, h1, hsuf⟩
    · rw [h0]; simp
    · rw [h1]
      have hna : allowedExtension (String.mk e) = false := by
        by_contra hc
        have hc2 : allowedExtension (String.mk e) = true := by simpa using hc
        have hmem := allowedExtension_mem hc2
        apply hext _ hmem
        simpa using hsuf
      simp [hna]

/-- Every file whose name ends in `.tar.gz` or `.tar.bz2` is skipped by
`upload`, whatever comes before that ending. -/
theorem uploadEntry_tar_archive (s : State W) (f : Entry)
    (h : ".tar.gz".toList <:+ f.name.toList ∨ ".tar.bz2".toList <:+ f.name.toList) :
    uploadEntry env cfg s f = s := by
  have key : ∃ x : List Char, ('.' :: x) <:+ f.name.toList ∧ '.' ∉ x ∧
      allowedExtension (String.mk x) = false := by
    rcases h with h | h
    · exact ⟨['g', 'z'], List.IsSuffix.trans ⟨['.', 't', 'a', 'r'], rfl⟩ h, by decide, by decide⟩
    · exact ⟨['b', 'z', '2'], List.IsSuffix.trans ⟨['.', 't', 'a', 'r'], rfl⟩ h, by decide,
        by decide⟩
  obtain ⟨x, hx, hd, hna⟩ := key
  unfold uploadEntry
  by_cases hdir : f.isDir = true
  · simp [hdir]
  · simp only [hdir, if_false]
    rcases findAllStringSubmatch_last hx hd with h0 | ⟨m, h1⟩
    · rw [h0]; simp
    · rw [h1]; simp [hna]

theorem Untouched.refl (f : Entry) (s : State W) : Untouched cfg f s s :=
  ⟨fun h => h, fun _ h _ => h⟩

theorem Untouched.trans {f : Entry} {s t r : State W}
    (h1 : Untouched cfg f s t) (h2 : Untouched cfg f t r) : Untouched cfg f s r :=
  ⟨fun h => h2.1 (h1.1 h), fun ev hev hs => h1.2 ev (h2.2 ev hev hs) hs⟩

theorem mem_removeFile {f : Entry} {store : List Entry} {fullPath : String}
    (h : f ∈ store) (hp : cfg.screensPath ++ f.name ≠ fullPath) :
    f ∈ removeFile cfg store fullPath := by
  unfold removeFile
  rw [List.mem_filter]
  exact ⟨h, by simpa using hp⟩

theorem mem_writeFile {f : Entry} {store : List Entry} (name : String) (h : f ∈ store) :
    f ∈ writeFile store name := by
  unfold writeFile
  split
  · exact h
  · exact List.mem_append_left _ h

theorem movBranch_untouched (s : State W) (f : Entry) (fullPath ext : String)
    (hp : cfg.screensPath ++ f.name ≠ fullPath) :
    Untouched cfg f s (movBranch env cfg s fullPath ext).1 := by
  unfold movBranch
  by_cases hm : ext = "mov"
  · simp only [hm, if_true]
    cases hr : ffmpegTranscode env s.world fullPath (cfg.screensPath ++ "out.mp4") with
    | mk ok w1 =>
      cases ok with
      | true =>
        refine ⟨fun h => mem_removeFile cfg (mem_writeFile _ h) hp, ?_⟩
        intro ev hev hs
        simp only [List.mem_append, List.mem_cons, List.mem_singleton, List.not_mem_nil,
          or_false] at hev
        rcases hev with h | h | h
        · exact h
        · rw [h] at hs; simp [Event.source] at hs; exact absurd hs.symm hp
        · rw [h] at hs; simp [Event.source] at hs; exact absurd hs.symm hp
      | false =>
        refine ⟨fun h => h, ?_⟩
        intro ev hev hs
        simp only [List.mem_append, List.mem_cons, List.mem_singleton, List.not_mem_nil,
          or_false] at hev
        rcases hev with h | h
        · exact h
        · rw [h] at hs; simp [Event.source] at hs; exact absurd hs.symm hp
  · simp only [hm, if_false]
    exact Untouched.refl cfg f s

theorem afterTransfer_untouched (s : State W) (f : Entry) (fullPath remoteFilename : String)
    (hp : cfg.screensPath ++ f.name ≠ fullPath) :
    Untouched cfg f s (afterTransfer env cfg s fullPath remoteFilename) := by
  unfold afterTransfer
  simp only
  cases hn : showNotification env cfg
      (copyToClipboard env s.world (cfg.baseURL ++ remoteFilename))
      (cfg.baseURL ++ remoteFilename) with
  | mk shown w2 =>
    cases shown with
    | false =>
      refine ⟨fun h => h, ?_⟩
      intro ev hev hs
      simp only [List.mem_append, List.mem_cons, List.mem_singleton, List.not_mem_nil,
        or_false] at hev
      rcases hev with h | h | h | h
      · exact h
      all_goals (rw [h] at hs; simp [Event.source] at hs)
    | true =>
      simp only
      cases hb : openbrowser env cfg w2 (cfg.baseURL ++ remoteFilename) with
      | mk ok w3 =>
        cases ok with
        | false =>
          refine ⟨fun h => h, ?_⟩
          intro ev hev hs
          simp only [List.mem_append, List.mem_cons, List.mem_singleton, List.not_mem_nil,
            or_false] at hev
          rcases hev with h | h | h | h | h
          · exact h
          all_goals (rw [h] at hs; simp [Event.source] at hs)
        | true =>
          refine ⟨fun h => mem_removeFile cfg h hp, ?_⟩
          intro ev hev hs
          simp only [List.mem_append, List.mem_cons, List.mem_singleton, List.not_mem_nil,
            or_false] at hev
          rcases hev with h | h | h | h | h
          · exact h
          · rw [h] at hs; simp [Event.source] at hs
          · rw [h] at hs; simp [Event.source] at hs
          · rw [h] at hs; simp [Event.source] at hs
          · rw [h] at hs; simp [Event.source] at hs; exact absurd hs.symm hp

theorem transferStage_untouched (s : State W) (f : Entry) (fullPath ext : String)
    (hp : cfg.screensPath ++ f.name ≠ fullPath) :
    Untouched cfg f s (transferStage env cfg s fullPath ext) := by
  unfold transferStage
  cases hi : env.shortuuidNew s.world with
  | mk id w1 =>
    simp only
    have hstep : ∀ w2 : W, Untouched cfg f s
        { s with world := w2,
                 trace := s.trace ++ [Event.transfer fullPath (id ++ "." ++ ext)] } := by
      intro w2
      refine ⟨fun h => h, ?_⟩
      intro ev hev hs
      simp only [List.mem_append, List.mem_singleton] at hev
      rcases hev with h | h
      · exact h
      · rw [h] at hs; simp [Event.source] at hs; exact absurd hs.symm hp
    cases hu : uploadObjectToDestination env cfg w1 fullPath (id ++ "." ++ ext) with
    | mk ok w2 =>
      cases ok with
      | false => exact hstep w2
      | true =>
        exact Untouched.trans cfg (hstep w2) (afterTransfer_untouched env cfg _ f _ _ hp)

theorem uploadEntry_untouched (s : State W) (f g : Entry)
    (hext : ∀ e ∈ allowed, ¬ (("." ++ e).toList <:+ f.name.toList)) :
    Untouched cfg f s (uploadEntry env cfg s g) := by
  by_cases hn : g.name = f.name
  · rw [uploadEntry_skip env cfg s g (by rw [hn]; exact hext)]
    exact Untouched.refl cfg f s
  · have hp : cfg.screensPath ++ f.name ≠ cfg.screensPath ++ g.name := fun h =>
      hn (path_cancel _ _ _ h).symm
    unfold uploadEntry
    by_cases hd : g.isDir = true
    · simp only [hd, if_true]; exact Untouched.refl cfg f s
    · simp only [hd, if_false]
      rcases findAllStringSubmatch_cases g.name with h0 | ⟨m, e, h1, -⟩
      · rw [h0]; exact Untouched.refl cfg f s
      · rw [h1]
        simp only
        by_cases ha : allowedExtension (String.mk e) = true
        · simp only [ha, Bool.not_true, if_false]
          have hmv := movBranch_untouched env cfg s f (cfg.screensPath ++ g.name) (String.mk e) hp
          cases hb : movBranch env cfg s (cfg.screensPath ++ g.name) (String.mk e) with
          | mk s1 done =>
            rw [hb] at hmv
            cases done with
            | true => exact hmv
            | false =>
              exact Untouched.trans cfg hmv (transferStage_untouched env cfg s1 f _ _ hp)
        · have ha2 : allowedExtension (String.mk e) = false := by simpa using ha
          simp only [ha2, Bool.not_false, if_true]
          exact Untouched.refl cfg f s

theorem uploadLoop_untouched (l : List Entry) (s : State W) (f : Entry)
    (hext : ∀ e ∈ allowed, ¬ (("." ++ e).toList <:+ f.name.toList)) :
    Untouched cfg f s (uploadLoop env cfg l s) := by
  induction l generalizing s with
  | nil => exact Untouched.refl cfg f s
  | cons g gs ih =>
    cases hx : s.exited with
    | true => rw [uploadLoop_exited env cfg _ s hx]; exact Untouched.refl cfg f s
    | false =>
      rw [uploadLoop_cons env cfg g gs s hx]
      exact Untouched.trans cfg (uploadEntry_untouched env cfg s f g hext) (ih _)

theorem upload_untouched (s : State W) (f : Entry)
    (hext : ∀ e ∈ allowed, ¬ (("." ++ e).toList <:+ f.name.toList)) :
    Untouched cfg f s (upload env cfg s) := by
  unfold upload
  cases hx : s.exited with
  | true => simp only [if_true]; exact Untouched.refl cfg f s
  | false =>
    simp only [Bool.false_eq_true, if_false]
    cases hr : env.readDir s.world with
    | mk ok w =>
      cases ok with
      | false =>
        refine ⟨fun h => h, ?_⟩
        intro ev hev hs
        simp only [List.mem_append, List.mem_singleton] at hev
        rcases hev with h | h
        · exact h
        · rw [h] at hs; simp [Event.source] at hs
      | true =>
        have h := uploadLoop_untouched env cfg s.store { s with world := w } f hext
        rw [hx] at h
        exact ⟨h.1, h.2⟩

end Pass

/-! ## The claims about `run` -/

theorem wrap64_reflect (h y : Int) :
    wrap64 (wrap64 (wrap64 h - wrap64 y) + 24) = wrap64 (h - y + 24) := by
  unfold wrap64
  omega

theorem captureBounds_box (monitorY : Int) (u v : Vec)
    (hux : fits64 u.X) (hvx : fits64 v.X)
    (huy : fits64 (monitorY - u.Y + 24)) (hvy : fits64 (monitorY - v.Y + 24)) :
    captureBounds monitorY (R u.X u.Y v.X v.Y) =
      { Min := { X := min u.X v.X, Y := monitorY - max u.Y v.Y + 24 },
        Max := { X := max u.X v.X, Y := monitorY - min u.Y v.Y + 24 } } := by
  unfold captureBounds R
  simp only [wrap64_reflect, wrap64_of_fits hux, wrap64_of_fits hvx, wrap64_of_fits huy,
    wrap64_of_fits hvy]
  by_cases hx : u.X > v.X
  · by_cases hy : monitorY - u.Y + 24 > monitorY - v.Y + 24
    · simp only [hx, hy, if_true]
      congr 2 <;> omega
    · simp only [hx, hy, if_true, if_false]
      congr 2 <;> omega
  · by_cases hy : monitorY - u.Y + 24 > monitorY - v.Y + 24
    · simp only [hx, hy, if_true, if_false]
      congr 2 <;> omega
    · simp only [hx, hy, if_false]
      congr 2 <;> omega

/-- Claim C1: for every anchor `u`, cursor `v` and monitor height, the drag
from `u` to `v` makes `run` hand a rectangle to `generateScreenshot`, and that
rectangle has `Min.X ≤ Max.X` and `Min.Y ≤ Max.Y`; the same holds for the
rectangle handed over after any other sequence of polls. -/
theorem run_rectangle_ordered (monitorY : Int) (u v w : Vec) (mids : List Vec)
    (polls : List Poll) :
    (∃ b, run monitorY (drag u mids v w) = some (some b) ∧
      b.Min.X ≤ b.Max.X ∧ b.Min.Y ≤ b.Max.Y) ∧
    (∀ b, run monitorY polls = some (some b) → b.Min.X ≤ b.Max.X ∧ b.Min.Y ≤ b.Max.Y) := by
  refine ⟨⟨_, run_drag monitorY u mids v w, captureBounds_ordered monitorY _⟩, ?_⟩
  intro b h
  unfold run at h
  cases hl : selectionLoop Selection.start polls with
  | none => rw [hl] at h; exact absurd h (by simp)
  | some s =>
    rw [hl] at h
    by_cases hs : s.shot = true
    · simp only [hs, if_true, Option.some.injEq] at h
      rw [← h]
      exact captureBounds_ordered monitorY s.rect
    · simp [hs] at h

theorem run_rectangle_ordered_witness :
    run 1080 [held ⟨300, 200⟩, released ⟨300, 200⟩] = some (some ⟨⟨0, 1104⟩, ⟨0, 1104⟩⟩) ∧
      ((0 : Int) ≤ 0 ∧ (1104 : Int) ≤ 1104) :=
  ⟨by decide,
   (run_rectangle_ordered 1080 ⟨300, 200⟩ ⟨100, 400⟩ ⟨100, 400⟩ [⟨250, 250⟩]
      [held ⟨300, 200⟩, released ⟨300, 200⟩]).2 ⟨⟨0, 1104⟩, ⟨0, 1104⟩⟩ (by decide)⟩

theorem loopBody_idle (s : Selection) (m : Vec) : loopBody s (idle m) = s := by
  cases s
  simp [loopBody, onPressed, onReleasedLeft, onReleasedRight, idle]

theorem selectionLoop_idles (s : Selection) (idles : List Vec) (l : List Poll)
    (hc : s.closed = false) :
    selectionLoop s (idles.map idle ++ l) = selectionLoop s l := by
  induction idles with
  | nil => rfl
  | cons m ms ih =>
    simp only [List.map_cons, List.cons_append, selectionLoop, hc, Bool.false_eq_true,
      if_false, loopBody_idle]
    exact ih

theorem loopBody_release (s : Selection) (rel : Poll)
    (hrel : rel.pressedLeft = false) (hleft : rel.justReleasedLeft = true) :
    loopBody s rel = { s with drawing := false, closed := true, shot := true } := by
  cases hr : rel.justReleasedRight <;> cases hq : rel.closeRequest <;>
    simp [loopBody, onPressed, onReleasedLeft, onReleasedRight, hrel, hleft, hr, hq]

theorem selectionLoop_closed (s : Selection) (l : List Poll) (h : s.closed = true) :
    selectionLoop s l = some s := by
  cases l <;> simp [selectionLoop, h]

/-- With the anchor taken and the button still held over `mids` and then at
`c`, a poll that reports the release ends the loop with `rect = R(u, c)`,
whatever polls follow. -/
theorem selectionLoop_held_release (s : Selection) (mids : List Vec) (c : Vec) (rel : Poll)
    (rest : List Poll) (hd : s.drawing = true) (hc : s.closed = false)
    (hrel : rel.pressedLeft = false) (hleft : rel.justReleasedLeft = true) :
    selectionLoop s (mids.map held ++ held c :: rel :: rest) =
      some { u := s.u, v := c, drawing := false, rect := R s.u.X s.u.Y c.X c.Y,
             shot := true, closed := true } := by
  induction mids generalizing s with
  | nil =>
    have h1 : (loopBody s (held c)).closed = false := by
      simp [loopBody, onPressed, onReleasedLeft, onReleasedRight, held, hd, hc]
    simp only [List.map_nil, List.nil_append, selectionLoop, hc, h1, Bool.false_eq_true,
      if_false]
    rw [loopBody_release _ rel hrel hleft, selectionLoop_closed _ rest rfl]
    simp [loopBody, onPressed, onReleasedLeft, onReleasedRight, held, hd]
  | cons m ms ih =>
    simp only [List.map_cons, List.cons_append, selectionLoop, hc, Bool.false_eq_true,
      if_false]
    have h1 : (loopBody s (held m)).drawing = true := by
      simp [loopBody, onPressed, onReleasedLeft, onReleasedRight, held, hd]
    have h2 : (loopBody s (held m)).closed = false := by
      simp [loopBody, onPressed, onReleasedLeft, onReleasedRight, held, hd, hc]
    have h3 : (loopBody s (held m)).u = s.u := by
      simp [loopBody, onPressed, onReleasedLeft, onReleasedRight, held, hd]
    have := ih (loopBody s (held m)) h1 h2
    simpa [h3] using this

/-- A release right after the poll that took the anchor ends the loop with
`rect` still at its zero value. -/
theorem selectionLoop_click (u : Vec) (rel : Poll) (rest : List Poll)
    (hrel : rel.pressedLeft = false) (hleft : rel.justReleasedLeft = true) :
    selectionLoop Selection.start (held u :: rel :: rest) =
      some { u := u, v := ⟨0, 0⟩, drawing := false, rect := ⟨⟨0, 0⟩, ⟨0, 0⟩⟩,
             shot := true, closed := true } := by
  have h0 : Selection.start.closed = false := rfl
  have h1 : (loopBody Selection.start (held u)).closed = false := by
    simp [loopBody, onPressed, onReleasedLeft, onReleasedRight, held, Selection.start]
  simp only [selectionLoop, h0, h1, Bool.false_eq_true, if_false]
  rw [loopBody_release _ rel hrel hleft, selectionLoop_closed _ rest rfl]
  simp [loopBody, onPressed, onReleasedLeft, onReleasedRight, held, Selection.start]

theorem captureBounds_zero (monitorY : Int) (h24 : fits64 (monitorY + 24)) :
    captureBounds monitorY ⟨⟨0, 0⟩, ⟨0, 0⟩⟩ =
      { Min := { X := 0, Y := monitorY + 24 }, Max := { X := 0, Y := monitorY + 24 } } := by
  have hz : wrap64 0 = 0 := by decide
  have hy : wrap64 (wrap64 (wrap64 monitorY - 0) + 24) = monitorY + 24 := by
    have := wrap64_reflect monitorY 0
    rw [hz] at this
    rw [this]
    have h2 : monitorY - 0 + 24 = monitorY + 24 := by omega
    rw [h2]
    exact wrap64_of_fits h24
  unfold captureBounds
  simp only [hz, hy, gt_iff_lt, lt_self_iff_false, if_false]

/-- Claim C7, as stated, fails: with the anchor at (300, 200) and the button
released in the next poll, `run` hands over the rectangle from (0, 1104) to
(0, 1104), which is the box of the converted anchor and a converted cursor
for no cursor at all. -/
theorem click_hands_over_zero_rectangle :
    run 1080 [held ⟨300, 200⟩, released ⟨300, 200⟩] =
        some (some ⟨⟨0, 1104⟩, ⟨0, 1104⟩⟩) ∧
      ¬ ∃ v : Vec, run 1080 [held ⟨300, 200⟩, released ⟨300, 200⟩] =
        some (some
          { Min := { X := min 300 v.X, Y := 1080 - max 200 v.Y + 24 },
            Max := { X := max 300 v.X, Y := 1080 - min 200 v.Y + 24 } }) := by
  have hrun : run 1080 [held ⟨300, 200⟩, released ⟨300, 200⟩] =
      some (some ⟨⟨0, 1104⟩, ⟨0, 1104⟩⟩) := by decide
  refine ⟨hrun, ?_⟩
  rintro ⟨v, hv⟩
  rw [hrun] at hv
  simp only [Option.some.injEq, Rectangle.mk.injEq, Point.mk.injEq] at hv
  omega

/-- Claim C7, amended: for the anchor `u`, the cursor `v` and the monitor
height `H`, the rectangle built by lines 323-349 from `rect = R(u, v)` is the
bounding box of the two converted points, `Min.X = min(ux, vx)`,
`Max.X = max(ux, vx)`, `Min.Y = H - max(uy, vy) + 24` and
`Max.Y = H - min(uy, vy) + 24`; `run` calls `generateScreenshot` with that
rectangle when, after any idle polls, the button goes down at `u`, stays held
for at least one more poll, the last of them at `v`, and is then released;
when it is released in the poll right after the anchor poll, `rect` was never
assigned and `run` hands over `Min = Max = (0, H + 24)`. The X coordinates,
the two converted Y values and `H + 24` are taken in the range of `int`. -/
theorem run_drag_bounding_box (monitorY : Int) (u v : Vec) (idles mids : List Vec)
    (rel : Poll) (rest : List Poll)
    (hrel : rel.pressedLeft = false) (hleft : rel.justReleasedLeft = true)
    (hux : fits64 u.X) (hvx : fits64 v.X)
    (huy : fits64 (monitorY - u.Y + 24)) (hvy : fits64 (monitorY - v.Y + 24))
    (h24 : fits64 (monitorY + 24)) :
    captureBounds monitorY (R u.X u.Y v.X v.Y) =
      { Min := { X := min u.X v.X, Y := monitorY - max u.Y v.Y + 24 },
        Max := { X := max u.X v.X, Y := monitorY - min u.Y v.Y + 24 } } ∧
    run monitorY (idles.map idle ++ held u :: (mids.map held ++ held v :: rel :: rest)) =
      some (some
        { Min := { X := min u.X v.X, Y := monitorY - max u.Y v.Y + 24 },
          Max := { X := max u.X v.X, Y := monitorY - min u.Y v.Y + 24 } }) ∧
    run monitorY (idles.map idle ++ held u :: rel :: rest) =
      some (some
        { Min := { X := 0, Y := monitorY + 24 }, Max := { X := 0, Y := monitorY + 24 } }) := by
  have hbox := captureBounds_box monitorY u v hux hvx huy hvy
  refine ⟨hbox, ?_, ?_⟩
  · unfold run
    rw [selectionLoop_idles _ idles _ rfl]
    have h0 : Selection.start.closed = false := rfl
    rw [selectionLoop]
    simp only [h0, Bool.false_eq_true, if_false]
    rw [selectionLoop_held_release (loopBody Selection.start (held u)) mids v rel rest
      (by simp [loopBody, onPressed, onReleasedLeft, onReleasedRight, held, Selection.start])
      (by simp [loopBody, onPressed, onReleasedLeft, onReleasedRight, held, Selection.start])
      hrel hleft]
    have hu : (loopBody Selection.start (held u)).u = u := by
      simp [loopBody, onPressed, onReleasedLeft, onReleasedRight, held, Selection.start]
    simp only [hu, if_true, hbox]
  · unfold run
    rw [selectionLoop_idles _ idles _ rfl, selectionLoop_click u rel rest hrel hleft]
    simp only [if_true, captureBounds_zero monitorY h24]

theorem run_drag_bounding_box_witness :
    run 1080 ([⟨90, 410⟩].map idle ++ held ⟨100, 400⟩ ::
        ([⟨120, 380⟩, ⟨290, 210⟩].map held ++ held ⟨300, 200⟩ :: released ⟨301, 199⟩ :: [])) =
      some (some { Min := { X := 100, Y := 704 }, Max := { X := 300, Y := 904 } }) :=
  (run_drag_bounding_box 1080 ⟨100, 400⟩ ⟨300, 200⟩ [⟨90, 410⟩] [⟨120, 380⟩, ⟨290, 210⟩]
      (released ⟨301, 199⟩) [] rfl rfl
      (by decide) (by decide) (by decide) (by decide) (by decide)).2.1

/-- Claim C8: a drag from `p` to `q` and a drag from `q` to `p` make `run`
call `generateScreenshot` with the same rectangle, whatever the positions in
between and at the release. -/
theorem drag_direction_irrelevant (monitorY : Int) (p q w w2 : Vec) (mids mids2 : List Vec) :
    run monitorY (drag p mids q w) = run monitorY (drag q mids2 p w2) ∧
    run monitorY (drag p mids q w) =
      some (some (captureBounds monitorY (R p.X p.Y q.X q.Y))) := by
  rw [run_drag, run_drag, captureBounds_swap monitorY p q]
  exact ⟨rfl, rfl⟩

/-- Claim C10, as stated, fails: when the secondary and the primary button are
released in the same poll of an uncommitted selection, `run` still calls
`generateScreenshot`. -/
theorem right_release_with_left_release_captures :
    selectionLoop Selection.start [held ⟨100, 400⟩, held ⟨300, 200⟩] = none ∧
    run 1080 [held ⟨100, 400⟩, held ⟨300, 200⟩,
        { pressedLeft := false, justReleasedLeft := true, justReleasedRight := true,
          mouse := ⟨300, 200⟩, closeRequest := false }] =
      some (some ⟨⟨100, 704⟩, ⟨300, 904⟩⟩) := by
  decide

theorem loopBody_shot_closed (s : Selection) (p : Poll)
    (h : s.shot = true → s.closed = true) :
    (loopBody s p).shot = true → (loopBody s p).closed = true := by
  unfold loopBody onReleasedRight onReleasedLeft onPressed
  cases hp : p.pressedLeft <;> cases hd : s.drawing <;> cases hl : p.justReleasedLeft <;>
    cases hr : p.justReleasedRight <;> cases hc : p.closeRequest <;> simp <;> exact h

/-- While the loop is still running after the polls `before`, it goes on from
the state these polls lead to, whose window is open and whose `shot` is
unset. -/
theorem selectionLoop_open (s : Selection) (before rest : List Poll)
    (hinv : s.shot = true → s.closed = true)
    (hopen : selectionLoop s before = none) :
    selectionLoop s (before ++ rest) = selectionLoop (before.foldl loopBody s) rest ∧
      (before.foldl loopBody s).closed = false ∧ (before.foldl loopBody s).shot = false := by
  induction before generalizing s with
  | nil =>
    have hc : s.closed = false := by
      cases hcl : s.closed with
      | false => rfl
      | true => simp [selectionLoop, hcl] at hopen
    refine ⟨by simp, hc, ?_⟩
    cases hs : s.shot with
    | false => exact hs
    | true => rw [hinv hs] at hc; exact absurd hc (by simp)
  | cons q qs ih =>
    have hc : s.closed = false := by
      cases hcl : s.closed with
      | false => rfl
      | true => simp [selectionLoop, hcl] at hopen
    simp only [selectionLoop, hc, Bool.false_eq_true, if_false] at hopen
    obtain ⟨ht, h1, h2⟩ := ih (loopBody s q) (loopBody_shot_closed s q hinv) hopen
    refine ⟨?_, h1, h2⟩
    simp only [List.cons_append, selectionLoop, hc, Bool.false_eq_true, if_false,
      List.foldl_cons]
    exact ht

/-- From an open state with `shot` unset, a poll that reports the release of
the secondary button ends the loop; the state it leaves has `shot` set
exactly when the primary button was released in the same poll. -/
theorem selectionLoop_right_release (t : Selection) (p : Poll) (rest : List Poll)
    (hc : t.closed = false) (hs : t.shot = false) (hright : p.justReleasedRight = true) :
    ∃ r, selectionLoop t (p :: rest) = some r ∧ r.shot = p.justReleasedLeft ∧
      r.rect = (onPressed t p).rect := by
  have hclosed : (loopBody t p).closed = true := by
    unfold loopBody onReleasedRight
    simp [hright]
  refine ⟨loopBody t p, ?_, ?_, ?_⟩
  · simp only [selectionLoop, hc, Bool.false_eq_true, if_false]
    exact selectionLoop_closed _ rest hclosed
  · unfold loopBody onReleasedRight onReleasedLeft onPressed
    cases hl : p.justReleasedLeft <;> cases hp : p.pressedLeft <;> cases hd : t.drawing <;>
      simp [hright, hs]
  · unfold loopBody onReleasedRight onReleasedLeft
    cases hl : p.justReleasedLeft <;> simp [hright]

/-- Claim C10, amended: when the secondary button is released in a poll before
which the loop was still running, `run` returns without calling
`generateScreenshot` if the primary button is not released in that same poll;
if it is, the release commits and `run` calls `generateScreenshot` with the
rectangle built from `rect` as it stands in that poll. -/
theorem right_release_cancels (monitorY : Int) (before : List Poll) (p : Poll)
    (rest : List Poll)
    (hopen : selectionLoop Selection.start before = none)
    (hright : p.justReleasedRight = true) :
    run monitorY (before ++ p :: rest) =
      if p.justReleasedLeft then
        some (some (captureBounds monitorY
          (onPressed (before.foldl loopBody Selection.start) p).rect))
      else some none := by
  obtain ⟨ht, hc, hs⟩ := selectionLoop_open Selection.start before (p :: rest)
    (by intro h; exact absurd h (by decide)) hopen
  obtain ⟨r, hr, hshot, hrect⟩ :=
    selectionLoop_right_release (before.foldl loopBody Selection.start) p rest hc hs hright
  unfold run
  rw [ht, hr]
  simp only [hshot, hrect]

theorem right_release_cancels_witness :
    run 1080 ([held ⟨100, 400⟩, held ⟨300, 200⟩] ++
        { pressedLeft := true, justReleasedLeft := false, justReleasedRight := true,
          mouse := ⟨300, 200⟩, closeRequest := false } :: [released ⟨300, 200⟩]) =
      some none :=
  right_release_cancels 1080 [held ⟨100, 400⟩, held ⟨300, 200⟩]
    { pressedLeft := true, justReleasedLeft := false, justReleasedRight := true,
      mouse := ⟨300, 200⟩, closeRequest := false }
    [released ⟨300, 200⟩] (by decide) rfl

/-! ## The claims about `upload` -/

section Claims

variable {W : Type} (env : Env W) (cfg : Config)

theorem movBranch_false {s s1 : State W} {fullPath ext : String}
    (h : movBranch env cfg s fullPath ext = (s1, false)) :
    s1.store = s.store ∧ s1.exited = s.exited ∧
    s1.trace = s.trace ++
      (if ext = "mov" then [Event.transcode fullPath (cfg.screensPath ++ "out.mp4")] else []) := by
  unfold movBranch at h
  by_cases hm : ext = "mov"
  · simp only [hm, if_true] at h ⊢
    cases hr : ffmpegTranscode env s.world fullPath (cfg.screensPath ++ "out.mp4") with
    | mk ok w1 =>
      rw [hr] at h
      cases ok with
      | true => simp at h
      | false =>
        simp only [Prod.mk.injEq, and_true] at h
        rw [← h]
        exact ⟨rfl, rfl, rfl⟩
  · simp only [hm, if_false, Prod.mk.injEq, and_true] at h ⊢
    rw [← h]
    exact ⟨rfl, rfl, by simp⟩

theorem uploadEntry_transfer {s s1 : State W} {f : Entry} {m ext : String}
    (hfile : f.isDir = false)
    (hmatch : findAllStringSubmatch f.name = [[m, ext]])
    (hallowed : allowedExtension ext = true)
    (hmov : movBranch env cfg s (cfg.screensPath ++ f.name) ext = (s1, false)) :
    uploadEntry env cfg s f = transferStage env cfg s1 (cfg.screensPath ++ f.name) ext := by
  unfold uploadEntry
  simp only [hfile, Bool.false_eq_true, if_false, hmatch, hallowed, Bool.not_true, hmov]

theorem transferStage_failed {s1 : State W} {fullPath ext id : String} {w1 w2 : W}
    (hid : env.shortuuidNew s1.world = (id, w1))
    (hfail : uploadObjectToDestination env cfg w1 fullPath (id ++ "." ++ ext) = (false, w2)) :
    transferStage env cfg s1 fullPath ext =
      { s1 with world := w2, trace := s1.trace ++ [Event.transfer fullPath (id ++ "." ++ ext)] } := by
  unfold transferStage
  simp only [hid, hfail]

theorem transferStage_done {s1 : State W} {fullPath ext id : String} {w1 w2 : W}
    (hid : env.shortuuidNew s1.world = (id, w1))
    (hok : uploadObjectToDestination env cfg w1 fullPath (id ++ "." ++ ext) = (true, w2)) :
    transferStage env cfg s1 fullPath ext =
      afterTransfer env cfg
        { s1 with world := w2, trace := s1.trace ++ [Event.transfer fullPath (id ++ "." ++ ext)] }
        fullPath (id ++ "." ++ ext) := by
  unfold transferStage
  simp only [hid, hok]

/-- What follows a successful transfer, by the platform and the outcome of
`openbrowser`. -/
theorem afterTransfer_cases (s : State W) (fullPath n : String) (okB : Bool) (w3 : W)
    (hbrowser : openbrowser env cfg
      (showNotification env cfg (copyToClipboard env s.world (cfg.baseURL ++ n))
        (cfg.baseURL ++ n)).2
      (cfg.baseURL ++ n) = (okB, w3)) :
    afterTransfer env cfg s fullPath n =
      if notifierSupported cfg.goos then
        if okB then
          { s with
              world := w3
              store := removeFile cfg s.store fullPath
              trace := s.trace ++
                [Event.clipboard (cfg.baseURL ++ n), Event.notification (cfg.baseURL ++ n),
                 Event.browser (cfg.baseURL ++ n), Event.remove fullPath] }
        else
          { s with
              world := w3
              trace := s.trace ++
                [Event.clipboard (cfg.baseURL ++ n), Event.notification (cfg.baseURL ++ n),
                 Event.browser (cfg.baseURL ++ n), Event.fatal]
              exited := true }
      else
        { s with
            world := copyToClipboard env s.world (cfg.baseURL ++ n)
            trace := s.trace ++
              [Event.clipboard (cfg.baseURL ++ n), Event.notification (cfg.baseURL ++ n),
               Event.crash]
            exited := true } := by
  unfold afterTransfer
  unfold showNotification at hbrowser ⊢
  cases hs : notifierSupported cfg.goos with
  | false => simp only [Bool.false_eq_true, if_false]
  | true =>
    simp only [hs, if_true] at hbrowser ⊢
    rw [hbrowser]
    cases okB <;> simp

/-- Claim C2, as stated, fails: the transfer of `shot.png` succeeds, the
browser command does not start, and the pass ends in `log.Fatal` with
`shot.png` still in the Capture Store. -/
theorem browser_failure_keeps_uploaded_file :
    uploadObjectToDestination (plainEnv true true false) demoConfig () "/s/shot.png" "id7.png" =
        (true, ()) ∧
      upload (plainEnv true true false) demoConfig ⟨(), [⟨"shot.png", false⟩], [], false⟩ =
        ⟨(), [⟨"shot.png", false⟩],
          [Event.transfer "/s/shot.png" "id7.png", Event.clipboard "https://x/id7.png",
           Event.notification "https://x/id7.png", Event.browser "https://x/id7.png",
           Event.fatal],
          true⟩ := by
  decide

/-- Claim C2, amended: when the transfer of a file succeeds, the pass calls
`copyToClipboard` and `showNotification` once each with `baseURL ++ n`, `n`
being the destination name of the transfer. On `darwin`, `linux` and
`windows` it then calls `openbrowser` once with the same URL and, if that
does not fail, removes the local file and goes on with the remaining
entries; a failing `openbrowser` ends the process before the removal. On any
other platform `showNotification` panics, which ends the process before
`openbrowser` and the removal. -/
theorem transfer_success_effects (s s1 : State W) (f : Entry) (rest : List Entry)
    (m ext id : String) (okB : Bool) (w1 w2 w3 : W)
    (hlive : s.exited = false) (hfile : f.isDir = false)
    (hmatch : findAllStringSubmatch f.name = [[m, ext]])
    (hallowed : allowedExtension ext = true)
    (hmov : movBranch env cfg s (cfg.screensPath ++ f.name) ext = (s1, false))
    (hid : env.shortuuidNew s1.world = (id, w1))
    (hok : uploadObjectToDestination env cfg w1 (cfg.screensPath ++ f.name)
      (id ++ "." ++ ext) = (true, w2))
    (hbrowser : openbrowser env cfg
      (showNotification env cfg (copyToClipboard env w2 (cfg.baseURL ++ (id ++ "." ++ ext)))
        (cfg.baseURL ++ (id ++ "." ++ ext))).2
      (cfg.baseURL ++ (id ++ "." ++ ext)) = (okB, w3)) :
    uploadLoop env cfg (f :: rest) s =
      (if notifierSupported cfg.goos then
        if okB then
          uploadLoop env cfg rest
            { world := w3
              store := removeFile cfg s.store (cfg.screensPath ++ f.name)
              trace := s.trace ++
                (if ext = "mov" then
                  [Event.transcode (cfg.screensPath ++ f.name) (cfg.screensPath ++ "out.mp4")]
                 else []) ++
                [Event.transfer (cfg.screensPath ++ f.name) (id ++ "." ++ ext)] ++
                [Event.clipboard (cfg.baseURL ++ (id ++ "." ++ ext)),
                 Event.notification (cfg.baseURL ++ (id ++ "." ++ ext)),
                 Event.browser (cfg.baseURL ++ (id ++ "." ++ ext)),
                 Event.remove (cfg.screensPath ++ f.name)]
              exited := false }
        else
          { world := w3
            store := s.store
            trace := s.trace ++
              (if ext = "mov" then
                [Event.transcode (cfg.screensPath ++ f.name) (cfg.screensPath ++ "out.mp4")]
               else []) ++
              [Event.transfer (cfg.screensPath ++ f.name) (id ++ "." ++ ext)] ++
              [Event.clipboard (cfg.baseURL ++ (id ++ "." ++ ext)),
               Event.notification (cfg.baseURL ++ (id ++ "." ++ ext)),
               Event.browser (cfg.baseURL ++ (id ++ "." ++ ext)),
               Event.fatal]
            exited := true }
      else
        { world := copyToClipboard env w2 (cfg.baseURL ++ (id ++ "." ++ ext))
          store := s.store
          trace := s.trace ++
            (if ext = "mov" then
              [Event.transcode (cfg.screensPath ++ f.name) (cfg.screensPath ++ "out.mp4")]
             else []) ++
            [Event.transfer (cfg.screensPath ++ f.name) (id ++ "." ++ ext)] ++
            [Event.clipboard (cfg.baseURL ++ (id ++ "." ++ ext)),
             Event.notification (cfg.baseURL ++ (id ++ "." ++ ext)),
             Event.crash]
          exited := true }) ∧
    ∀ e ∈ removeFile cfg s.store (cfg.screensPath ++ f.name), e.name ≠ f.name := by
  obtain ⟨h1, h2, h3⟩ := movBranch_false env cfg hmov
  constructor
  · rw [uploadLoop_cons env cfg f rest s hlive,
      uploadEntry_transfer env cfg hfile hmatch hallowed hmov,
      transferStage_done env cfg hid hok,
      afterTransfer_cases env cfg _ _ _ okB w3 hbrowser]
    cases hs : notifierSupported cfg.goos with
    | false =>
      simp only [Bool.false_eq_true, if_false, h1, h3]
      exact uploadLoop_exited env cfg rest _ rfl
    | true =>
      cases okB with
      | false =>
        simp only [if_true, Bool.false_eq_true, if_false, h1, h3]
        exact uploadLoop_exited env cfg rest _ rfl
      | true => simp only [if_true, h1, h2, h3, hlive]
  · intro e he hn
    unfold removeFile at he
    rw [List.mem_filter] at he
    simp [hn] at he

theorem transfer_success_effects_witness :
    upload (plainEnv true true true) demoConfig ⟨(), [⟨"shot.png", false⟩], [], false⟩ =
      ⟨(), [],
        [Event.transfer "/s/shot.png" "id7.png", Event.clipboard "https://x/id7.png",
         Event.notification "https://x/id7.png", Event.browser "https://x/id7.png",
         Event.remove "/s/shot.png"],
        false⟩ :=
  (transfer_success_effects (plainEnv true true true) demoConfig
     ⟨(), [⟨"shot.png", false⟩], [], false⟩ ⟨(), [⟨"shot.png", false⟩], [], false⟩
     ⟨"shot.png", false⟩ [] "shot.png" "png" "id7" true () () ()
     rfl rfl (by decide) (by decide) (by decide) rfl (by decide) (by decide)).1

/-- Claim C3: a file whose name does not end in a dot followed by one of the
allowed extensions stays in the Capture Store over any number of upload
passes, whatever arrives in between and whatever the outside world answers,
and no pass transcodes, transfers or removes its path. -/
theorem disallowed_file_untouched (passes : List (List Entry)) (s : State W) (f : Entry)
    (hext : ∀ e ∈ allowed, ¬ (("." ++ e).toList <:+ f.name.toList)) :
    ((f ∈ s.store ∨ ∃ a ∈ passes, f ∈ a) → f ∈ (uploadPasses env cfg passes s).store) ∧
    ∀ ev ∈ (uploadPasses env cfg passes s).trace,
      ev.source = some (cfg.screensPath ++ f.name) → ev ∈ s.trace := by
  induction passes generalizing s with
  | nil =>
    refine ⟨?_, fun ev hev _ => hev⟩
    rintro (h | ⟨a, ha, -⟩)
    · exact h
    · exact absurd ha (List.not_mem_nil a)
  | cons a more ih =>
    have hu := upload_untouched env cfg { s with store := s.store ++ a } f hext
    have hm := ih (upload env cfg { s with store := s.store ++ a })
    refine ⟨?_, fun ev hev hs => hu.2 ev (hm.2 ev hev hs) hs⟩
    rintro (h | ⟨b, hb, hfb⟩)
    · exact hm.1 (Or.inl (hu.1 (List.mem_append_left _ h)))
    · rcases List.mem_cons.1 hb with rfl | hb2
      · exact hm.1 (Or.inl (hu.1 (List.mem_append_right _ hfb)))
      · exact hm.1 (Or.inr ⟨b, hb2, hfb⟩)

theorem disallowed_file_untouched_witness :
    (∀ e ∈ allowed, ¬ (("." ++ e).toList <:+ "doc.txt".toList)) ∧
      (⟨"doc.txt", false⟩ ∈
        (uploadPasses (plainEnv true true true) demoConfig [[⟨"shot.png", false⟩], []]
          ⟨(), [⟨"doc.txt", false⟩, ⟨"clip.mov", false⟩], [], false⟩).store) :=
  ⟨by decide,
   (disallowed_file_untouched (plainEnv true true true) demoConfig [[⟨"shot.png", false⟩], []]
      ⟨(), [⟨"doc.txt", false⟩, ⟨"clip.mov", false⟩], [], false⟩ ⟨"doc.txt", false⟩
      (by decide)).1 (Or.inl (by decide))⟩

/-- Claim C4: when the transfer of a file with an allowed extension fails, the
pass leaves the Capture Store as it was, adds nothing to the calls made but
the transfer itself (after the transcode attempt of a `mov` file), and goes on
with the remaining entries. -/
theorem transfer_failure_keeps_file (s s1 : State W) (f : Entry) (rest : List Entry)
    (m ext id : String) (w1 w2 : W)
    (hlive : s.exited = false) (hfile : f.isDir = false)
    (hmatch : findAllStringSubmatch f.name = [[m, ext]])
    (hallowed : allowedExtension ext = true)
    (hmov : movBranch env cfg s (cfg.screensPath ++ f.name) ext = (s1, false))
    (hid : env.shortuuidNew s1.world = (id, w1))
    (hfail : uploadObjectToDestination env cfg w1 (cfg.screensPath ++ f.name)
      (id ++ "." ++ ext) = (false, w2)) :
    uploadLoop env cfg (f :: rest) s =
      uploadLoop env cfg rest
        { world := w2
          store := s.store
          trace := s.trace ++
            (if ext = "mov" then
              [Event.transcode (cfg.screensPath ++ f.name) (cfg.screensPath ++ "out.mp4")]
             else []) ++
            [Event.transfer (cfg.screensPath ++ f.name) (id ++ "." ++ ext)]
          exited := false } := by
  obtain ⟨h1, h2, h3⟩ := movBranch_false env cfg hmov
  rw [uploadLoop_cons env cfg f rest s hlive, uploadEntry_transfer env cfg hfile hmatch hallowed hmov,
    transferStage_failed env cfg hid hfail, h1, h2, h3, hlive]

theorem transfer_failure_keeps_file_witness :
    uploadObjectToDestination (plainEnv true false true) demoConfig () "/s/shot.png" "id7.png" =
        (false, ()) ∧
      uploadLoop (plainEnv true false true) demoConfig
          [⟨"shot.png", false⟩, ⟨"b.gif", false⟩]
          ⟨(), [⟨"shot.png", false⟩, ⟨"b.gif", false⟩], [], false⟩ =
        uploadLoop (plainEnv true false true) demoConfig [⟨"b.gif", false⟩]
          ⟨(), [⟨"shot.png", false⟩, ⟨"b.gif", false⟩],
            [Event.transfer "/s/shot.png" "id7.png"], false⟩ :=
  ⟨by decide,
   transfer_failure_keeps_file (plainEnv true false true) demoConfig
     ⟨(), [⟨"shot.png", false⟩, ⟨"b.gif", false⟩], [], false⟩
     ⟨(), [⟨"shot.png", false⟩, ⟨"b.gif", false⟩], [], false⟩
     ⟨"shot.png", false⟩ [⟨"b.gif", false⟩] "shot.png" "png" "id7" () ()
     rfl rfl (by decide) (by decide) (by decide) rfl (by decide)⟩

/-- Claim C5, as stated, fails: ffmpeg reports a failure for `clip.mov`, and
the pass then transfers `clip.mov` itself and removes it. -/
theorem mov_uploaded_after_failed_transcode :
    ffmpegTranscode (plainEnv false true true) () "/s/clip.mov" "/s/out.mp4" = (false, ()) ∧
      upload (plainEnv false true true) demoConfig ⟨(), [⟨"clip.mov", false⟩], [], false⟩ =
        ⟨(), [],
          [Event.transcode "/s/clip.mov" "/s/out.mp4",
           Event.transfer "/s/clip.mov" "id7.mov", Event.clipboard "https://x/id7.mov",
           Event.notification "https://x/id7.mov", Event.browser "https://x/id7.mov",
           Event.remove "/s/clip.mov"],
          false⟩ := by
  decide

/-- Claim C5, amended: for a `mov` file, a successful transcode makes the pass
remove it without a transfer and go on; after a failed transcode the pass
hands the file itself to the transfer client as `<id>.mov`, leaves it in place
and goes on when that transfer fails, and otherwise runs the three side
effects and removes it, unless `showNotification` panics (a platform other
than `darwin`, `linux`, `windows`) or `openbrowser` fails, which ends the
process with the file in place. -/
theorem mov_entry_behaviour (s : State W) (f : Entry) (rest : List Entry)
    (m id : String) (okT okU okB : Bool) (w0 w1 w2 w3 : W)
    (hlive : s.exited = false) (hfile : f.isDir = false)
    (hmatch : findAllStringSubmatch f.name = [[m, "mov"]])
    (htrans : ffmpegTranscode env s.world (cfg.screensPath ++ f.name)
      (cfg.screensPath ++ "out.mp4") = (okT, w0))
    (hid : env.shortuuidNew w0 = (id, w1))
    (hup : uploadObjectToDestination env cfg w1 (cfg.screensPath ++ f.name)
      (id ++ "." ++ "mov") = (okU, w2))
    (hbrowser : openbrowser env cfg
      (showNotification env cfg (copyToClipboard env w2 (cfg.baseURL ++ (id ++ "." ++ "mov")))
        (cfg.baseURL ++ (id ++ "." ++ "mov"))).2
      (cfg.baseURL ++ (id ++ "." ++ "mov")) = (okB, w3)) :
    uploadLoop env cfg (f :: rest) s =
      if okT then
        uploadLoop env cfg rest
          { world := w0
            store := removeFile cfg (writeFile s.store "out.mp4") (cfg.screensPath ++ f.name)
            trace := s.trace ++
              [Event.transcode (cfg.screensPath ++ f.name) (cfg.screensPath ++ "out.mp4"),
               Event.remove (cfg.screensPath ++ f.name)]
            exited := false }
      else if !okU then
        uploadLoop env cfg rest
          { world := w2
            store := s.store
            trace := s.trace ++
              [Event.transcode (cfg.screensPath ++ f.name) (cfg.screensPath ++ "out.mp4"),
               Event.transfer (cfg.screensPath ++ f.name) (id ++ "." ++ "mov")]
            exited := false }
      else if !notifierSupported cfg.goos then
        { world := copyToClipboard env w2 (cfg.baseURL ++ (id ++ "." ++ "mov"))
          store := s.store
          trace := s.trace ++
            [Event.transcode (cfg.screensPath ++ f.name) (cfg.screensPath ++ "out.mp4"),
             Event.transfer (cfg.screensPath ++ f.name) (id ++ "." ++ "mov"),
             Event.clipboard (cfg.baseURL ++ (id ++ "." ++ "mov")),
             Event.notification (cfg.baseURL ++ (id ++ "." ++ "mov")),
             Event.crash]
          exited := true }
      else if !okB then
        { world := w3
          store := s.store
          trace := s.trace ++
            [Event.transcode (cfg.screensPath ++ f.name) (cfg.screensPath ++ "out.mp4"),
             Event.transfer (cfg.screensPath ++ f.name) (id ++ "." ++ "mov"),
             Event.clipboard (cfg.baseURL ++ (id ++ "." ++ "mov")),
             Event.notification (cfg.baseURL ++ (id ++ "." ++ "mov")),
             Event.browser (cfg.baseURL ++ (id ++ "." ++ "mov")),
             Event.fatal]
          exited := true }
      else
        uploadLoop env cfg rest
          { world := w3
            store := removeFile cfg s.store (cfg.screensPath ++ f.name)
            trace := s.trace ++
              [Event.transcode (cfg.screensPath ++ f.name) (cfg.screensPath ++ "out.mp4"),
               Event.transfer (cfg.screensPath ++ f.name) (id ++ "." ++ "mov"),
               Event.clipboard (cfg.baseURL ++ (id ++ "." ++ "mov")),
               Event.notification (cfg.baseURL ++ (id ++ "." ++ "mov")),
               Event.browser (cfg.baseURL ++ (id ++ "." ++ "mov")),
               Event.remove (cfg.screensPath ++ f.name)]
            exited := false } := by
  have hmovAllowed : allowedExtension "mov" = true := by decide
  rw [uploadLoop_cons env cfg f rest s hlive]
  unfold uploadEntry
  simp only [hfile, Bool.false_eq_true, if_false, hmatch, hmovAllowed, Bool.not_true]
  unfold movBranch
  simp only [if_true, htrans]
  cases okT with
  | true => simp only [if_true, hlive]
  | false =>
    simp only [Bool.false_eq_true, if_false]
    unfold transferStage
    simp only [hid, hup]
    cases okU with
    | false =>
      simp only [Bool.not_false, if_true, hlive, List.append_assoc, List.singleton_append]
    | true =>
      simp only [Bool.not_true, Bool.false_eq_true, if_false]
      rw [afterTransfer_cases env cfg _ _ _ okB w3 hbrowser]
      cases hs : notifierSupported cfg.goos with
      | false =>
        simp only [Bool.not_false, if_true, Bool.false_eq_true, if_false, List.append_assoc,
          List.singleton_append, List.cons_append, List.nil_append]
        exact (uploadLoop_exited env cfg rest _ rfl)
      | true =>
        cases okB with
        | false =>
          simp only [Bool.not_false, Bool.not_true, if_true, Bool.false_eq_true, if_false,
            List.append_assoc, List.singleton_append, List.cons_append, List.nil_append]
          exact (uploadLoop_exited env cfg rest _ rfl)
        | true =>
          simp only [Bool.not_true, Bool.false_eq_true, if_false, if_true, List.append_assoc,
            List.singleton_append, List.cons_append, List.nil_append, hlive]

theorem mov_entry_behaviour_witness :
    uploadLoop (plainEnv false false true) demoConfig [⟨"clip.mov", false⟩, ⟨"b.gif", false⟩]
        ⟨(), [⟨"clip.mov", false⟩, ⟨"b.gif", false⟩], [], false⟩ =
      uploadLoop (plainEnv false false true) demoConfig [⟨"b.gif", false⟩]
        ⟨(), [⟨"clip.mov", false⟩, ⟨"b.gif", false⟩],
          [Event.transcode "/s/clip.mov" "/s/out.mp4", Event.transfer "/s/clip.mov" "id7.mov"],
          false⟩ :=
  mov_entry_behaviour (plainEnv false false true) demoConfig
    ⟨(), [⟨"clip.mov", false⟩, ⟨"b.gif", false⟩], [], false⟩
    ⟨"clip.mov", false⟩ [⟨"b.gif", false⟩] "clip.mov" "id7" false false true () () () ()
    rfl rfl (by decide) (by decide) rfl (by decide) (by decide)

/-- Claim C6 fails on the code for `tar.gz`: the list of `allowedExtension`
holds `tar.gz`, but for `backup.tar.gz` the expression of `upload` extracts
`gz`, which is not in the list, and a pass in which every call would succeed
leaves the file where it is without a transcode or a transfer. -/
theorem tar_gz_file_is_skipped :
    allowedExtension "tar.gz" = true ∧
      findAllStringSubmatch "backup.tar.gz" = [["backup.tar.gz", "gz"]] ∧
      allowedExtension "gz" = false ∧
      upload (plainEnv true true true) demoConfig
          ⟨(), [⟨"backup.tar.gz", false⟩, ⟨"backup.tar.bz2", false⟩], [], false⟩ =
        ⟨(), [⟨"backup.tar.gz", false⟩, ⟨"backup.tar.bz2", false⟩], [], false⟩ := by
  decide

/-- Claim C9, as stated, fails: on `darwin` the transfer of `a.png` succeeds,
the command `open` does not start, and the pass ends in `log.Fatal`: `a.png`
is not removed and `b.png` is never handed to the transfer client. -/
theorem open_command_failure_stops_pass :
    upload (plainEnv true true false)
        { screensPath := "/s/", remotePath := "/r/", baseURL := "https://x/", goos := "darwin" }
        ⟨(), [⟨"a.png", false⟩, ⟨"b.png", false⟩], [], false⟩ =
      ⟨(), [⟨"a.png", false⟩, ⟨"b.png", false⟩],
        [Event.transfer "/s/a.png" "id7.png", Event.clipboard "https://x/id7.png",
         Event.notification "https://x/id7.png", Event.browser "https://x/id7.png",
         Event.fatal],
        true⟩ := by
  decide

/-- Claim C9, amended: a failure of the browser launcher is not only logged,
`openbrowser` ends the process in `log.Fatal`. On `darwin`, `linux` and
`windows`, for a file whose transfer succeeded: when `openbrowser` cannot start
its command, the clipboard, the notification and the browser were each called
once, the local file is not removed and the remaining entries of the listing
are not processed; when it starts the command, the local file is removed and
the pass goes on with the remaining entries. On any other platform
`openbrowser` fails whenever it is called, but the pass does not call it:
`showNotification` has ended the process before, the local file in place. -/
theorem browser_failure_is_fatal (s s1 : State W) (f : Entry) (rest : List Entry)
    (m ext id : String) (okB : Bool) (w1 w2 w3 : W)
    (hlive : s.exited = false) (hfile : f.isDir = false)
    (hmatch : findAllStringSubmatch f.name = [[m, ext]])
    (hallowed : allowedExtension ext = true)
    (hmov : movBranch env cfg s (cfg.screensPath ++ f.name) ext = (s1, false))
    (hid : env.shortuuidNew s1.world = (id, w1))
    (hok : uploadObjectToDestination env cfg w1 (cfg.screensPath ++ f.name)
      (id ++ "." ++ ext) = (true, w2))
    (hbrowser : openbrowser env cfg
      (showNotification env cfg (copyToClipboard env w2 (cfg.baseURL ++ (id ++ "." ++ ext)))
        (cfg.baseURL ++ (id ++ "." ++ ext))).2
      (cfg.baseURL ++ (id ++ "." ++ ext)) = (okB, w3)) :
    (notifierSupported cfg.goos = true →
      (okB = false →
        uploadLoop env cfg (f :: rest) s =
          { world := w3
            store := s.store
            trace := s.trace ++
              (if ext = "mov" then
                [Event.transcode (cfg.screensPath ++ f.name) (cfg.screensPath ++ "out.mp4")]
               else []) ++
              [Event.transfer (cfg.screensPath ++ f.name) (id ++ "." ++ ext),
               Event.clipboard (cfg.baseURL ++ (id ++ "." ++ ext)),
               Event.notification (cfg.baseURL ++ (id ++ "." ++ ext)),
               Event.browser (cfg.baseURL ++ (id ++ "." ++ ext)),
               Event.fatal]
            exited := true }) ∧
      (okB = true →
        uploadLoop env cfg (f :: rest) s =
          uploadLoop env cfg rest
            { world := w3
              store := removeFile cfg s.store (cfg.screensPath ++ f.name)
              trace := s.trace ++
                (if ext = "mov" then
                  [Event.transcode (cfg.screensPath ++ f.name) (cfg.screensPath ++ "out.mp4")]
                 else []) ++
                [Event.transfer (cfg.screensPath ++ f.name) (id ++ "." ++ ext),
                 Event.clipboard (cfg.baseURL ++ (id ++ "." ++ ext)),
                 Event.notification (cfg.baseURL ++ (id ++ "." ++ ext)),
                 Event.browser (cfg.baseURL ++ (id ++ "." ++ ext)),
                 Event.remove (cfg.screensPath ++ f.name)]
              exited := false })) ∧
    (notifierSupported cfg.goos = false →
      (∀ (w : W) (url : String), openbrowser env cfg w url = (false, w)) ∧
      uploadLoop env cfg (f :: rest) s =
        { world := copyToClipboard env w2 (cfg.baseURL ++ (id ++ "." ++ ext))
          store := s.store
          trace := s.trace ++
            (if ext = "mov" then
              [Event.transcode (cfg.screensPath ++ f.name) (cfg.screensPath ++ "out.mp4")]
             else []) ++
            [Event.transfer (cfg.screensPath ++ f.name) (id ++ "." ++ ext),
             Event.clipboard (cfg.baseURL ++ (id ++ "." ++ ext)),
             Event.notification (cfg.baseURL ++ (id ++ "." ++ ext)),
             Event.crash]
          exited := true }) := by
  obtain ⟨h1, h2, h3⟩ := movBranch_false env cfg hmov
  have hstep : uploadLoop env cfg (f :: rest) s =
      uploadLoop env cfg rest (afterTransfer env cfg
        { s1 with world := w2,
                  trace := s1.trace ++
                    [Event.transfer (cfg.screensPath ++ f.name) (id ++ "." ++ ext)] }
        (cfg.screensPath ++ f.name) (id ++ "." ++ ext)) := by
    rw [uploadLoop_cons env cfg f rest s hlive,
      uploadEntry_transfer env cfg hfile hmatch hallowed hmov,
      transferStage_done env cfg hid hok]
  rw [afterTransfer_cases env cfg _ _ _ okB w3 hbrowser] at hstep
  refine ⟨fun hs => ⟨fun hb => ?_, fun hb => ?_⟩, fun hs => ⟨fun w url => ?_, ?_⟩⟩
  · rw [hstep]
    simp only [hs, hb, if_true, Bool.false_eq_true, if_false, h1, h3, List.append_assoc,
      List.singleton_append]
    exact uploadLoop_exited env cfg rest _ rfl
  · rw [hstep]
    simp only [hs, hb, if_true, h1, h2, h3, hlive, List.append_assoc, List.singleton_append]
  · have hne : cfg.goos ≠ "linux" ∧ cfg.goos ≠ "windows" ∧ cfg.goos ≠ "darwin" := by
      unfold notifierSupported at hs
      simp only [Bool.or_eq_false_iff, beq_eq_false_iff_ne, ne_eq] at hs
      exact ⟨hs.1.2, hs.2, hs.1.1⟩
    unfold openbrowser
    simp only [hne.1, hne.2.1, hne.2.2, if_false]
  · rw [hstep]
    simp only [hs, Bool.false_eq_true, if_false, h1, h3, List.append_assoc,
      List.singleton_append]
    exact uploadLoop_exited env cfg rest _ rfl

theorem browser_failure_is_fatal_witness :
    uploadLoop (plainEnv true true false) demoConfig [⟨"a.png", false⟩, ⟨"b.png", false⟩]
        ⟨(), [⟨"a.png", false⟩, ⟨"b.png", false⟩], [], false⟩ =
      ⟨(), [⟨"a.png", false⟩, ⟨"b.png", false⟩],
        [Event.transfer "/s/a.png" "id7.png", Event.clipboard "https://x/id7.png",
         Event.notification "https://x/id7.png", Event.browser "https://x/id7.png",
         Event.fatal],
        true⟩ :=
  ((browser_failure_is_fatal (plainEnv true true false) demoConfig
    ⟨(), [⟨"a.png", false⟩, ⟨"b.png", false⟩], [], false⟩
    ⟨(), [⟨"a.png", false⟩, ⟨"b.png", false⟩], [], false⟩
    ⟨"a.png", false⟩ [⟨"b.png", false⟩] "a.png" "png" "id7" false () () ()
    rfl rfl (by decide) (by decide) (by decide) rfl (by decide) (by decide)).1
      (by decide)).1 rfl

end Claims

end Skrins
